import Mathlib

/-
Verification of the Melanie RAG engine core (Rust sources under RAG/src)
against its natural-language specification.

Modelling conventions for the shallow embedding:
- f32 score values are modelled as real numbers (exact arithmetic);
  the floating-point square root becomes Real.sqrt.
- UUIDs (ChunkId, DocumentId) are modelled as natural numbers.
- HashMaps and the sled key-value store are modelled as association
  lists with insert-replaces-existing semantics; the in-memory LRU
  caches keep their entries in most-recently-used-first order.
- Remote collaborators (the embedding service, the tokenizer, the
  Unicode sentence segmenter, the hash function) are parameters of the
  functions that call them, so every theorem quantifies over them.
- Rayon parallel iteration over a HashMap is modelled as sequential
  iteration over the association list: the code's fold results do not
  depend on the schedule, only on the element multiset.
-/

namespace Melanie

/-- Chunk identifiers (uuid::Uuid in the source, modelled as Nat). -/
abbrev ChunkId := Nat

/-- Document identifiers (uuid::Uuid in the source, modelled as Nat). -/
abbrev DocumentId := Nat

/-- Vector embedding type (types.rs: type Embedding = Vec<f32>). -/
abbrev Embedding := List ℝ

/-- types.rs: struct Chunk (metadata map and created_at omitted:
no claim mentions them). -/
structure Chunk where
  id : ChunkId
  document_id : DocumentId
  content : String
  embedding : Option Embedding
  start_offset : Nat
  end_offset : Nat
  token_count : Nat

/-- types.rs: Chunk::set_embedding. -/
def Chunk.set_embedding (c : Chunk) (embedding : Embedding) : Chunk :=
  { c with embedding := some embedding }

/-- types.rs: struct RetrievalResult. -/
structure RetrievalResult where
  chunk : Chunk
  similarity_score : ℝ
  rerank_score : Option ℝ
  final_score : ℝ

/-- types.rs: RetrievalResult::new — rerank_score starts absent and
final_score starts as the similarity score. -/
def RetrievalResult.new (chunk : Chunk) (similarity_score : ℝ) : RetrievalResult :=
  { chunk := chunk
    similarity_score := similarity_score
    rerank_score := none
    final_score := similarity_score }

/-- types.rs: RetrievalResult::set_rerank_score —
final_score = similarity_score * 0.3 + rerank_score * 0.7. -/
def RetrievalResult.set_rerank_score (r : RetrievalResult) (rerank_score : ℝ) : RetrievalResult :=
  { r with
    rerank_score := some rerank_score
    final_score := r.similarity_score * 0.3 + rerank_score * 0.7 }

/-- types.rs: RetrievalResult::meets_threshold. -/
def RetrievalResult.meets_threshold (r : RetrievalResult) (threshold : ℝ) : Prop :=
  threshold ≤ r.final_score

/-- vector_store.rs, inside cosine_similarity: the pairwise product sum
a.iter().zip(b.iter()).map(|(x, y)| x * y).sum(). -/
def dot_product (a b : Embedding) : ℝ :=
  ((a.zip b).map (fun p => p.1 * p.2)).sum

/-- vector_store.rs, inside cosine_similarity: the squared norm
a.iter().map(|x| x * x).sum() (the source takes its square root). -/
def norm_sq (a : Embedding) : ℝ :=
  (a.map (fun x => x * x)).sum

/-- vector_store.rs: SledVectorStore::cosine_similarity. Returns 0 when
the lengths differ or either norm is zero, else dot/(‖a‖·‖b‖). -/
noncomputable def cosine_similarity (a b : Embedding) : ℝ :=
  if a.length ≠ b.length then 0
  else
    let norm_a : ℝ := Real.sqrt (norm_sq a)
    let norm_b : ℝ := Real.sqrt (norm_sq b)
    if norm_a = 0 ∨ norm_b = 0 then 0
    else dot_product a b / (norm_a * norm_b)

/-- vector_store.rs: SledVectorStore::parallel_similarity_search.
Scores every candidate, filters by min_score when provided, sorts
descending by score (stable, ties kept) and truncates to top_k.
The similarity function is a parameter (the source fixes it to
cosine_similarity over f32); the candidate map is an association list. -/
noncomputable def parallel_similarity_search (sim : Embedding → Embedding → ℝ)
    (query_embedding : Embedding) (embeddings : List (ChunkId × Embedding))
    (top_k : Nat) (min_score : Option ℝ) : List (ChunkId × ℝ) :=
  let similarities := embeddings.map (fun p => (p.1, sim query_embedding p.2))
  let filtered := similarities.filter (fun p =>
    match min_score with
    | some m => decide (m ≤ p.2)
    | none => true)
  let sorted := filtered.mergeSort (fun a b => decide (b.2 ≤ a.2))
  sorted.take top_k

/-- Association-list insert with replace-existing semantics
(HashMap::insert / sled Db::insert). -/
def listInsert {α : Type} (l : List (ChunkId × α)) (k : ChunkId) (v : α) :
    List (ChunkId × α) :=
  (k, v) :: l.filter (fun p => !(p.1 == k))

/-- Association-list removal (HashMap::remove / sled Db::remove). -/
def listErase {α : Type} (l : List (ChunkId × α)) (k : ChunkId) :
    List (ChunkId × α) :=
  l.filter (fun p => !(p.1 == k))

/-- Association-list lookup (HashMap::get / sled Db::get). -/
def listLookup {α : Type} (l : List (ChunkId × α)) (k : ChunkId) : Option α :=
  match l.find? (fun p => p.1 == k) with
  | some p => some p.2
  | none => none

/-- vector_store.rs: struct VectorIndex (the in-memory shadow; the
metadata map is omitted: no claim mentions it). -/
structure VectorIndex where
  embeddings : List (ChunkId × Embedding)

/-- vector_store.rs: SledVectorStore state — the sled database of
serialized chunks plus the in-memory shadow index. -/
structure SledVectorStore where
  db : List (ChunkId × Chunk)
  index : VectorIndex

/-- vector_store.rs: SledVectorStore::store_chunk — write the chunk to
the database, then add it to the shadow only when it has an embedding. -/
def SledVectorStore.store_chunk (s : SledVectorStore) (chunk : Chunk) :
    SledVectorStore :=
  match chunk.embedding with
  | some e =>
      { db := listInsert s.db chunk.id chunk
        index := ⟨listInsert s.index.embeddings chunk.id e⟩ }
  | none => { db := listInsert s.db chunk.id chunk, index := s.index }

/-- vector_store.rs: SledVectorStore::store_chunks — apply the batch of
database writes, then the index updates for chunks with embeddings. -/
def SledVectorStore.store_chunks (s : SledVectorStore) (chunks : List Chunk) :
    SledVectorStore :=
  { db := chunks.foldl (fun d c => listInsert d c.id c) s.db
    index := ⟨(chunks.filterMap (fun c => c.embedding.map (fun e => (c.id, e)))).foldl
      (fun l p => listInsert l p.1 p.2) s.index.embeddings⟩ }

/-- vector_store.rs: SledVectorStore::get_chunk. -/
def SledVectorStore.get_chunk (s : SledVectorStore) (id : ChunkId) : Option Chunk :=
  listLookup s.db id

/-- vector_store.rs: SledVectorStore::search_similar — early return on an
empty shadow, else a full parallel similarity search with no score floor. -/
noncomputable def SledVectorStore.search_similar (sim : Embedding → Embedding → ℝ)
    (s : SledVectorStore) (query_embedding : Embedding) (top_k : Nat) :
    List (ChunkId × ℝ) :=
  if s.index.embeddings.isEmpty then []
  else parallel_similarity_search sim query_embedding s.index.embeddings top_k none

/-- vector_store.rs: SledVectorStore::search_similar_advanced without the
optional cache read/write (cache hits short-circuit with previously stored
results; the cacheless path is the one specified): search with min_score,
then materialize a RetrievalResult for every id whose chunk is fetchable. -/
noncomputable def SledVectorStore.search_similar_advanced (sim : Embedding → Embedding → ℝ)
    (s : SledVectorStore) (query_embedding : Embedding) (top_k : Nat)
    (min_score : Option ℝ) : List RetrievalResult :=
  if s.index.embeddings.isEmpty then []
  else
    let similarities :=
      parallel_similarity_search sim query_embedding s.index.embeddings top_k min_score
    similarities.filterMap (fun p =>
      match s.get_chunk p.1 with
      | some chunk => some { RetrievalResult.new chunk p.2 with final_score := p.2 }
      | none => none)

/-- vector_store.rs: SledVectorStore::batch_search_similar — one empty
result per query on an empty shadow, else an independent full search per
query, outer order preserved. -/
noncomputable def SledVectorStore.batch_search_similar (sim : Embedding → Embedding → ℝ)
    (s : SledVectorStore) (query_embeddings : List Embedding) (top_k : Nat) :
    List (List (ChunkId × ℝ)) :=
  if s.index.embeddings.isEmpty then
    List.replicate query_embeddings.length []
  else
    query_embeddings.map (fun q =>
      parallel_similarity_search sim q s.index.embeddings top_k none)

/-- vector_store.rs: SledVectorStore::delete_chunk — remove from the
database and from the shadow. -/
def SledVectorStore.delete_chunk (s : SledVectorStore) (id : ChunkId) :
    SledVectorStore :=
  { db := listErase s.db id, index := ⟨listErase s.index.embeddings id⟩ }

/-- vector_store.rs: SledVectorStore::delete_chunks — batch removal from
the database, then from the shadow. -/
def SledVectorStore.delete_chunks (s : SledVectorStore) (ids : List ChunkId) :
    SledVectorStore :=
  { db := ids.foldl listErase s.db
    index := ⟨ids.foldl listErase s.index.embeddings⟩ }

/-- vector_store.rs: SledVectorStore::clear. -/
def SledVectorStore.clear (_s : SledVectorStore) : SledVectorStore :=
  { db := [], index := ⟨[]⟩ }

/-- vector_store.rs: FaissVectorStore state — the in-memory chunk map
plus the shadow index. -/
structure FaissVectorStore where
  chunks : List (ChunkId × Chunk)
  index : VectorIndex

/-- vector_store.rs: FaissVectorStore::store_chunk. -/
def FaissVectorStore.store_chunk (s : FaissVectorStore) (chunk : Chunk) :
    FaissVectorStore :=
  match chunk.embedding with
  | some e =>
      { chunks := listInsert s.chunks chunk.id chunk
        index := ⟨listInsert s.index.embeddings chunk.id e⟩ }
  | none => { chunks := listInsert s.chunks chunk.id chunk, index := s.index }

/-- vector_store.rs: FaissVectorStore::store_chunks — per-chunk insertion
into the chunk map and (for embedded chunks) the shadow, in input order. -/
def FaissVectorStore.store_chunks (s : FaissVectorStore) (cs : List Chunk) :
    FaissVectorStore :=
  cs.foldl FaissVectorStore.store_chunk s

/-- vector_store.rs: FaissVectorStore::get_chunk. -/
def FaissVectorStore.get_chunk (s : FaissVectorStore) (id : ChunkId) : Option Chunk :=
  listLookup s.chunks id

/-- vector_store.rs: FaissVectorStore::search_similar (delegates to
SledVectorStore::parallel_similarity_search in the source). -/
noncomputable def FaissVectorStore.search_similar (sim : Embedding → Embedding → ℝ)
    (s : FaissVectorStore) (query_embedding : Embedding) (top_k : Nat) :
    List (ChunkId × ℝ) :=
  if s.index.embeddings.isEmpty then []
  else parallel_similarity_search sim query_embedding s.index.embeddings top_k none

/-- vector_store.rs: FaissVectorStore::batch_search_similar. -/
noncomputable def FaissVectorStore.batch_search_similar (sim : Embedding → Embedding → ℝ)
    (s : FaissVectorStore) (query_embeddings : List Embedding) (top_k : Nat) :
    List (List (ChunkId × ℝ)) :=
  if s.index.embeddings.isEmpty then
    List.replicate query_embeddings.length []
  else
    query_embeddings.map (fun q =>
      parallel_similarity_search sim q s.index.embeddings top_k none)

/-- vector_store.rs: FaissVectorStore::delete_chunk. -/
def FaissVectorStore.delete_chunk (s : FaissVectorStore) (id : ChunkId) :
    FaissVectorStore :=
  { chunks := listErase s.chunks id, index := ⟨listErase s.index.embeddings id⟩ }

/-- vector_store.rs: FaissVectorStore::delete_chunks. -/
def FaissVectorStore.delete_chunks (s : FaissVectorStore) (ids : List ChunkId) :
    FaissVectorStore :=
  { chunks := ids.foldl listErase s.chunks
    index := ⟨ids.foldl listErase s.index.embeddings⟩ }

/-- vector_store.rs: FaissVectorStore::clear. -/
def FaissVectorStore.clear (_s : FaissVectorStore) : FaissVectorStore :=
  { chunks := [], index := ⟨[]⟩ }

/-- Shadow-index soundness invariant for the sled backend: every id in
the in-memory shadow has a chunk record in the database. -/
def SledVectorStore.Inv (s : SledVectorStore) : Prop :=
  ∀ p ∈ s.index.embeddings, (s.get_chunk p.1).isSome

/-- Shadow-index soundness invariant for the in-memory backend. -/
def FaissVectorStore.Inv (s : FaissVectorStore) : Prop :=
  ∀ p ∈ s.index.embeddings, (s.get_chunk p.1).isSome

/-- Model of Rust str::trim (leading and trailing whitespace stripped),
written by structural recursion on the character list so that concrete
instances compute. -/
def trimModel (s : String) : String :=
  String.mk (((s.data.dropWhile Char.isWhitespace).reverse.dropWhile
    Char.isWhitespace).reverse)

/-- types.rs: struct SubChunk. -/
structure SubChunk where
  parent_chunk_id : ChunkId
  content : String
  start_offset : Nat
  end_offset : Nat
  token_count : Nat
deriving DecidableEq

/-- chunker.rs: the sentence loop inside SmartChunker::create_sub_chunks
for one oversized parent chunk. State: pending content, its token count,
and the running start offset. A pending sub-chunk is sealed when adding
the next sentence would push it above 250 tokens and it already holds at
least 150; the final pending content is emitted unless it trims to
nothing. Offset arithmetic mirrors the source exactly (including its use
of the new pending content's length when advancing start_offset). -/
def subChunksLoop (cid : ChunkId) (count_tokens : String → Nat) :
    List String → String → Nat → Nat → List SubChunk
  | [], current_content, current_tokens, start_offset =>
      if (trimModel current_content).isEmpty then []
      else [⟨cid, trimModel current_content, start_offset,
             start_offset + current_content.length, current_tokens⟩]
  | sentence :: rest, current_content, current_tokens, start_offset =>
      if 250 < current_tokens + count_tokens sentence ∧ 150 ≤ current_tokens then
        ⟨cid, trimModel current_content, start_offset,
         start_offset + current_content.length, current_tokens⟩ ::
          subChunksLoop cid count_tokens rest sentence (count_tokens sentence)
            (start_offset + sentence.length)
      else
        subChunksLoop cid count_tokens rest
          (if current_content.isEmpty then sentence
           else current_content ++ " " ++ sentence)
          (current_tokens + count_tokens sentence) start_offset

/-- chunker.rs: SmartChunker::create_sub_chunks. Parents of at most 250
tokens pass through as a single sub-chunk; larger parents are split by
Unicode sentences via the loop above. The tokenizer and the sentence
segmenter are parameters of the model. -/
def create_sub_chunks (count_tokens : String → Nat)
    (unicode_sentences : String → List String) (chunks : List Chunk) :
    List SubChunk :=
  chunks.flatMap (fun chunk =>
    if chunk.token_count ≤ 250 then
      [⟨chunk.id, chunk.content, 0, chunk.content.length, chunk.token_count⟩]
    else
      subChunksLoop chunk.id count_tokens (unicode_sentences chunk.content) "" 0 0)

/-- error.rs: RagError (collapsed to the variants the claims touch). -/
inductive RagError where
  | invalid_input (msg : String)
  | embedding (msg : String)
  | other (msg : String)
deriving DecidableEq

/-- embedder.rs: the zip loop at the end of EmbeddingClient::embed_chunks:
each returned vector is attached to the chunk at the same position; the
iteration stops at the shorter of the two lists, leaving surplus chunks
untouched and dropping surplus vectors. -/
def attachEmbeddings : List Chunk → List Embedding → List Chunk
  | chunks, [] => chunks
  | [], _ => []
  | c :: cs, e :: es => c.set_embedding e :: attachEmbeddings cs es

/-- embedder.rs: EmbeddingClient::embed_chunks. The remote batched
embedding call (embed_batch) is a parameter: it receives the chunk
contents and yields either an error or a vector list. -/
def embed_chunks
    (embed_batch : List String → Except RagError (List Embedding))
    (chunks : List Chunk) : Except RagError (List Chunk) :=
  if chunks.isEmpty then Except.ok chunks
  else
    match embed_batch (chunks.map (fun c => c.content)) with
    | Except.error e => Except.error e
    | Except.ok embeddings => Except.ok (attachEmbeddings chunks embeddings)

/-- engine.rs: RagEngine::ingest_document, modelled on the document
metadata map (vector-store effects are covered by the store model).
Empty or whitespace-only content is rejected before any side effect;
content that chunks to nothing returns the fresh document id without
storing a document record; otherwise chunks are embedded (propagating
failure) and the document is recorded with its chunk ids. The chunker
and the embedding call are parameters; the fresh uuid is a parameter. -/
def ingest_document (chunk_document : String → List Chunk)
    (embed_batch : List String → Except RagError (List Embedding))
    (document_id : DocumentId) (documents : List (DocumentId × List ChunkId))
    (content : String) :
    Except RagError (DocumentId × List (DocumentId × List ChunkId)) :=
  if (trimModel content).isEmpty then
    Except.error (RagError.invalid_input "Document content cannot be empty")
  else
    let chunks := chunk_document content
    if chunks.isEmpty then Except.ok (document_id, documents)
    else
      match embed_chunks embed_batch chunks with
      | Except.error e => Except.error e
      | Except.ok embedded =>
          Except.ok (document_id,
            listInsert documents document_id (embedded.map (fun c => c.id)))

/-- config.rs: CacheConfig (fields used by the cache layer). -/
structure CacheConfig where
  enabled : Bool
  max_size : Nat
  ttl : Nat
  cache_embeddings : Bool
  cache_reranking : Bool
  cache_retrieval : Bool

/-- cache.rs: CachedItem — a value with its creation instant and TTL
(instants modelled as natural numbers). -/
structure CachedItem (α : Type) where
  value : α
  created_at : Nat
  ttl : Nat

/-- cache.rs: CacheKey = u64 (modelled as Nat). -/
abbrev CacheKey := Nat

/-- The lru crate's LruCache: entries in most-recently-used-first order,
bounded by cap. -/
structure LruCache (α : Type) where
  cap : Nat
  entries : List (CacheKey × α)

/-- lru::LruCache::put: replacing the value of a key already present
returns the displaced previous value and promotes the key to
most-recently-used; inserting a fresh key at capacity silently drops the
least-recently-used entry and returns none. -/
def LruCache.put {α : Type} (c : LruCache α) (k : CacheKey) (v : α) :
    Option α × LruCache α :=
  match listLookup c.entries k with
  | some old => (some old, ⟨c.cap, (k, v) :: listErase c.entries k⟩)
  | none =>
      let kept := if c.cap ≤ c.entries.length then c.entries.dropLast else c.entries
      (none, ⟨c.cap, (k, v) :: kept⟩)

/-- cache.rs: CacheStats. -/
structure CacheStats where
  embedding_hits : Nat
  embedding_misses : Nat
  reranking_hits : Nat
  reranking_misses : Nat
  retrieval_hits : Nat
  retrieval_misses : Nat
  evictions : Nat

/-- cache.rs: RagCache — the three LRU layers plus config and stats. -/
structure RagCache where
  embeddings : LruCache (CachedItem Embedding)
  reranking : LruCache (CachedItem (List ℝ))
  retrieval : LruCache (CachedItem (List RetrievalResult))
  config : CacheConfig
  stats : CacheStats

/-- cache.rs: RagCache::cache_embedding. The hash (generate_key) and the
current instant are parameters. The eviction counter is bumped exactly
when LruCache::put reports a displaced entry. -/
def RagCache.cache_embedding (hash : String → CacheKey) (now : Nat)
    (c : RagCache) (text : String) (embedding : Embedding) : RagCache :=
  if !(c.config.enabled && c.config.cache_embeddings) then c
  else
    let key := hash text
    let put := c.embeddings.put key ⟨embedding, now, c.config.ttl⟩
    { c with
      embeddings := put.2
      stats :=
        if put.1.isSome then { c.stats with evictions := c.stats.evictions + 1 }
        else c.stats }

/-- cache.rs: RagCache::cache_reranking. The multi-text hash
(generate_key_multi over query followed by the documents) is a
parameter. -/
def RagCache.cache_reranking (hash_multi : List String → CacheKey) (now : Nat)
    (c : RagCache) (query : String) (documents : List String)
    (scores : List ℝ) : RagCache :=
  if !(c.config.enabled && c.config.cache_reranking) then c
  else
    let key := hash_multi (query :: documents)
    let put := c.reranking.put key ⟨scores, now, c.config.ttl⟩
    { c with
      reranking := put.2
      stats :=
        if put.1.isSome then { c.stats with evictions := c.stats.evictions + 1 }
        else c.stats }

/-- cache.rs: RagCache::cache_retrieval. -/
def RagCache.cache_retrieval (hash : String → CacheKey) (now : Nat)
    (c : RagCache) (query : String) (results : List RetrievalResult) : RagCache :=
  if !(c.config.enabled && c.config.cache_retrieval) then c
  else
    let key := hash query
    let put := c.retrieval.put key ⟨results, now, c.config.ttl⟩
    { c with
      retrieval := put.2
      stats :=
        if put.1.isSome then { c.stats with evictions := c.stats.evictions + 1 }
        else c.stats }

/-- types.rs: RetrievalMode. -/
inductive RetrievalMode where
  | general
  | research
deriving DecidableEq

/-- python_bindings.rs: the mode-dependent return-token envelope used by
the retrieval admission check (5000 for General, 20000 for Research). -/
def estimated_return_tokens : RetrievalMode → Nat
  | RetrievalMode.general => 5000
  | RetrievalMode.research => 20000

/-- python_bindings.rs: the token-budget path of PyRagEngine::ingest_document.
Estimated tokens are content length divided by 4 (integer division). The
admission check rejects when the provisional addition would exceed the
limit; on engine failure the provisional addition is compensated
(saturating subtraction, here exact since the estimate was just added).
Returns the new counter and whether the ingest succeeded; the engine's
own outcome is the parameter engine_ok. -/
def ingest_document_budget (token_limit count : Nat) (content : String)
    (engine_ok : Bool) : Nat × Bool :=
  let estimated_tokens := content.length / 4
  if token_limit < count + estimated_tokens then (count, false)
  else if engine_ok then (count + estimated_tokens, true)
  else (count, false)

/-- python_bindings.rs: the token-budget path of PyRagEngine::retrieve_context.
The admission check uses the query tokens plus the fixed mode envelope;
after a successful retrieval the counter grows by the query tokens plus
the actual returned content tokens (each content length divided by 4).
The engine outcome is the parameter engine_results (none = engine error,
which leaves the counter unchanged). -/
def retrieve_context_budget (token_limit count : Nat) (query : String)
    (mode : RetrievalMode) (engine_results : Option (List RetrievalResult)) :
    Nat × Option (List RetrievalResult) :=
  let query_tokens := query.length / 4
  if token_limit < count + query_tokens + estimated_return_tokens mode then
    (count, none)
  else
    match engine_results with
    | none => (count, none)
    | some results =>
        let actual_tokens := (results.map (fun r => r.chunk.content.length / 4)).sum
        (count + query_tokens + actual_tokens, some results)

/-- C2: final_score equals 0.3·similarity + 0.7·rerank once set_rerank_score
has run (which also records the rerank score), and RetrievalResult::new
produces final_score = similarity with no rerank score. -/
theorem C2_final_score_blend :
    ∀ (r : RetrievalResult) (rr : ℝ) (c : Chunk) (s : ℝ),
      (r.set_rerank_score rr).final_score =
          0.3 * r.similarity_score + 0.7 * rr
      ∧ (r.set_rerank_score rr).rerank_score = some rr
      ∧ (r.set_rerank_score rr).similarity_score = r.similarity_score
      ∧ (RetrievalResult.new c s).final_score = s
      ∧ (RetrievalResult.new c s).rerank_score = none
      ∧ (RetrievalResult.new c s).similarity_score = s := by
  intro r rr c s
  refine ⟨?_, rfl, rfl, rfl, rfl, rfl⟩
  show r.similarity_score * 0.3 + rr * 0.7 = 0.3 * r.similarity_score + 0.7 * rr
  ring

/-- LruCache::put reports a displaced entry exactly when the key is
already present: its first component is the previous value under the
key. -/
theorem LruCache.put_fst {α : Type} (c : LruCache α) (k : CacheKey) (v : α) :
    (c.put k v).1 = listLookup c.entries k := by
  unfold LruCache.put
  cases listLookup c.entries k <;> rfl

/-- C8: on each cache layer, an insert displaces an existing entry exactly
when the layer is active and the key is already present (LruCache::put
then reports the previous entry under that key), and precisely then the
eviction counter grows by one; capacity-driven removal of the
least-recently-used entry under a fresh key is not reported by put and
leaves the counter unchanged. -/
theorem C8_eviction_counter :
    ∀ (hash : String → CacheKey) (hash_multi : List String → CacheKey)
      (now : Nat) (c : RagCache) (text : String) (embedding : Embedding)
      (query : String) (documents : List String) (scores : List ℝ)
      (results : List RetrievalResult),
      (RagCache.cache_embedding hash now c text embedding).stats.evictions =
          c.stats.evictions +
            (if c.config.enabled ∧ c.config.cache_embeddings ∧
                (listLookup c.embeddings.entries (hash text)).isSome
             then 1 else 0)
      ∧ (RagCache.cache_reranking hash_multi now c query documents scores).stats.evictions =
          c.stats.evictions +
            (if c.config.enabled ∧ c.config.cache_reranking ∧
                (listLookup c.reranking.entries (hash_multi (query :: documents))).isSome
             then 1 else 0)
      ∧ (RagCache.cache_retrieval hash now c query results).stats.evictions =
          c.stats.evictions +
            (if c.config.enabled ∧ c.config.cache_retrieval ∧
                (listLookup c.retrieval.entries (hash query)).isSome
             then 1 else 0) := by
  intro hash hash_multi now c text embedding query documents scores results
  refine ⟨?_, ?_, ?_⟩
  · by_cases hef : (c.config.enabled && c.config.cache_embeddings) = true
    · have hef2 : c.config.enabled = true ∧ c.config.cache_embeddings = true := by
        simpa using hef
      simp only [RagCache.cache_embedding, hef, Bool.not_true, Bool.false_eq_true,
        if_false, LruCache.put_fst]
      by_cases hl : (listLookup c.embeddings.entries (hash text)).isSome <;>
        simp [hl, hef2.1, hef2.2]
    · have hb : (c.config.enabled && c.config.cache_embeddings) = false := by
        cases h1 : c.config.enabled <;> cases h2 : c.config.cache_embeddings <;>
          simp_all
      have hc : ¬(c.config.enabled = true ∧ c.config.cache_embeddings = true ∧
          (listLookup c.embeddings.entries (hash text)).isSome = true) :=
        fun h => hef (by simp [h.1, h.2.1])
      simp [RagCache.cache_embedding, hb, hc]
  · by_cases hef : (c.config.enabled && c.config.cache_reranking) = true
    · have hef2 : c.config.enabled = true ∧ c.config.cache_reranking = true := by
        simpa using hef
      simp only [RagCache.cache_reranking, hef, Bool.not_true, Bool.false_eq_true,
        if_false, LruCache.put_fst]
      by_cases hl :
          (listLookup c.reranking.entries (hash_multi (query :: documents))).isSome <;>
        simp [hl, hef2.1, hef2.2]
    · have hb : (c.config.enabled && c.config.cache_reranking) = false := by
        cases h1 : c.config.enabled <;> cases h2 : c.config.cache_reranking <;>
          simp_all
      have hc : ¬(c.config.enabled = true ∧ c.config.cache_reranking = true ∧
          (listLookup c.reranking.entries (hash_multi (query :: documents))).isSome = true) :=
        fun h => hef (by simp [h.1, h.2.1])
      simp [RagCache.cache_reranking, hb, hc]
  · by_cases hef : (c.config.enabled && c.config.cache_retrieval) = true
    · have hef2 : c.config.enabled = true ∧ c.config.cache_retrieval = true := by
        simpa using hef
      simp only [RagCache.cache_retrieval, hef, Bool.not_true, Bool.false_eq_true,
        if_false, LruCache.put_fst]
      by_cases hl : (listLookup c.retrieval.entries (hash query)).isSome <;>
        simp [hl, hef2.1, hef2.2]
    · have hb : (c.config.enabled && c.config.cache_retrieval) = false := by
        cases h1 : c.config.enabled <;> cases h2 : c.config.cache_retrieval <;>
          simp_all
      have hc : ¬(c.config.enabled = true ∧ c.config.cache_retrieval = true ∧
          (listLookup c.retrieval.entries (hash query)).isSome = true) :=
        fun h => hef (by simp [h.1, h.2.1])
      simp [RagCache.cache_retrieval, hb, hc]

/-- C4 counterexample: ingesting the empty document is rejected with an
invalid-input error; it does not return a document id. -/
theorem C4_empty_ingest_counterexample :
    ingest_document (fun _ => []) (fun _ => Except.ok []) 0 [] "" =
      Except.error (RagError.invalid_input "Document content cannot be empty") := by
  rfl

/-- C4 amended: empty or whitespace-only content makes ingest_document
fail with the invalid-input error before any side effect; nonempty
content that chunks to nothing yields the document id with no document
record stored. -/
theorem C4_empty_ingest_amended :
    ∀ (chunk_document : String → List Chunk)
      (embed_batch : List String → Except RagError (List Embedding))
      (document_id : DocumentId) (documents : List (DocumentId × List ChunkId))
      (content : String),
      ((trimModel content).isEmpty = true →
        ingest_document chunk_document embed_batch document_id documents content =
          Except.error (RagError.invalid_input "Document content cannot be empty"))
      ∧ ((trimModel content).isEmpty = false → chunk_document content = [] →
          ingest_document chunk_document embed_batch document_id documents content =
            Except.ok (document_id, documents)) := by
  intro chunk_document embed_batch document_id documents content
  constructor
  · intro h
    simp [ingest_document, h]
  · intro h hchunks
    simp [ingest_document, h, hchunks]

/-- C4 witness: the amended theorem applied to the empty document. -/
theorem C4_empty_ingest_witness :
    ingest_document (fun _ => []) (fun _ => Except.ok [[(1 : ℝ)]]) 7 [] "" =
      Except.error (RagError.invalid_input "Document content cannot be empty") :=
  (C4_empty_ingest_amended (fun _ => []) (fun _ => Except.ok [[(1 : ℝ)]]) 7 [] "").1 rfl

/-- Reduction of retrieve_context_budget on a successful engine call that
passes the admission check. -/
theorem retrieve_context_budget_ok_eq (token_limit count : Nat) (query : String)
    (mode : RetrievalMode) (results : List RetrievalResult)
    (h : ¬ token_limit < count + query.length / 4 + estimated_return_tokens mode) :
    retrieve_context_budget token_limit count query mode (some results) =
      (count + query.length / 4 +
        (results.map (fun r => r.chunk.content.length / 4)).sum, some results) := by
  unfold retrieve_context_budget
  rw [if_neg h]

/-- C6 counterexample: with limit 5001, empty counter, a 4-character query
in General mode, the admission check passes (1 + 5000 ≤ 5001), yet a
successful retrieval returning one 20004-character chunk pushes the
counter to 5002 > 5001: the budget exceeds the configured limit outside
any failed admission check. -/
theorem C6_budget_overshoot_counterexample :
    ((retrieve_context_budget 5001 0 "abcd" RetrievalMode.general
        (some [RetrievalResult.new
          ⟨0, 0, String.mk (List.replicate 20004 'a'), none, 0, 0, 0⟩ 0])).2.isSome
      = true)
    ∧ 5001 <
        (retrieve_context_budget 5001 0 "abcd" RetrievalMode.general
          (some [RetrievalResult.new
            ⟨0, 0, String.mk (List.replicate 20004 'a'), none, 0, 0, 0⟩ 0])).1 := by
  have heq := retrieve_context_budget_ok_eq 5001 0 "abcd" RetrievalMode.general
    [RetrievalResult.new ⟨0, 0, String.mk (List.replicate 20004 'a'), none, 0, 0, 0⟩ 0]
    (by decide)
  rw [heq]
  refine ⟨rfl, ?_⟩
  rw [show ("abcd".length) = 4 from rfl]
  simp only [List.map_cons, List.map_nil, List.sum_cons, List.sum_nil,
    RetrievalResult.new, String.length_mk, List.length_replicate]
  norm_num

/-- C6 amended: the counter is a natural number (never negative); a
successful ingest admission leaves the counter within the limit; a
successful retrieval leaves the counter at previous + query tokens +
actual returned content tokens (each length/4), while its admission check
only guaranteed previous + query tokens + the fixed mode envelope ≤
limit — so the counter can exceed the limit when the actual return
outgrows the envelope; a failed engine retrieval leaves the counter
unchanged. -/
theorem C6_budget_accounting :
    ∀ (token_limit count : Nat) (content query : String) (engine_ok : Bool)
      (mode : RetrievalMode) (results : List RetrievalResult),
      ((ingest_document_budget token_limit count content engine_ok).2 = true →
        (ingest_document_budget token_limit count content engine_ok).1 ≤ token_limit)
      ∧ ((retrieve_context_budget token_limit count query mode (some results)).2.isSome →
          (retrieve_context_budget token_limit count query mode (some results)).1 =
            count + query.length / 4 +
              (results.map (fun r => r.chunk.content.length / 4)).sum
          ∧ count + query.length / 4 + estimated_return_tokens mode ≤ token_limit)
      ∧ (retrieve_context_budget token_limit count query mode none).1 = count := by
  intro token_limit count content query engine_ok mode results
  refine ⟨?_, ?_, ?_⟩
  · intro h
    unfold ingest_document_budget at h ⊢
    by_cases h1 : token_limit < count + content.length / 4
    · rw [if_pos h1] at h
      simp at h
    · rw [if_neg h1] at h ⊢
      cases engine_ok with
      | false => simp at h
      | true => simp only [reduceIte]; omega
  · intro h
    by_cases h1 : token_limit < count + query.length / 4 + estimated_return_tokens mode
    · exfalso
      unfold retrieve_context_budget at h
      rw [if_pos h1] at h
      simp at h
    · rw [retrieve_context_budget_ok_eq token_limit count query mode results h1]
      exact ⟨rfl, by omega⟩
  · by_cases h1 : token_limit < count + query.length / 4 + estimated_return_tokens mode
    · unfold retrieve_context_budget
      rw [if_pos h1]
    · unfold retrieve_context_budget
      rw [if_neg h1]

/-- C6 witness: the amended accounting applied at a concrete successful
ingest admission. -/
theorem C6_budget_accounting_witness :
    (ingest_document_budget 100 0 "aaaa" true).1 ≤ 100 :=
  (C6_budget_accounting 100 0 "aaaa" "q" true RetrievalMode.general []).1 rfl

/-- C7 counterexample: with one input chunk and an embedding call that
returns zero vectors, embed_chunks succeeds and leaves the chunk without
an embedding — the count mismatch raises no error. -/
theorem C7_mismatch_counterexample :
    embed_chunks (fun _ => Except.ok []) [⟨0, 0, "x", none, 0, 1, 1⟩] =
        Except.ok [⟨0, 0, "x", none, 0, 1, 1⟩]
    ∧ ([⟨0, 0, "x", none, 0, 1, 1⟩] : List Chunk).length ≠
        ([] : List Embedding).length := by
  exact ⟨rfl, by decide⟩

/-- C7 amended: embed_chunks attaches the i-th returned vector to the
i-th chunk in place; a count mismatch is NOT an error — surplus chunks
keep their previous (absent) embedding and surplus vectors are dropped;
the call fails only when the batched embedding call itself fails. -/
theorem C7_embed_chunks_amended :
    ∀ (embed_batch : List String → Except RagError (List Embedding))
      (chunks : List Chunk) (embeddings : List Embedding) (e : RagError),
      (embed_batch (chunks.map (fun c => c.content)) = Except.ok embeddings →
        embed_chunks embed_batch chunks = Except.ok (attachEmbeddings chunks embeddings))
      ∧ (attachEmbeddings chunks embeddings).length = chunks.length
      ∧ (∀ (i : Nat) (c : Chunk) (em : Embedding),
          chunks[i]? = some c → embeddings[i]? = some em →
          (attachEmbeddings chunks embeddings)[i]? = some (c.set_embedding em))
      ∧ (∀ (i : Nat) (c : Chunk), chunks[i]? = some c → embeddings.length ≤ i →
          (attachEmbeddings chunks embeddings)[i]? = some c)
      ∧ (chunks ≠ [] → embed_batch (chunks.map (fun c => c.content)) = Except.error e →
          embed_chunks embed_batch chunks = Except.error e) := by
  intro embed_batch chunks embeddings e
  refine ⟨?_, ?_, ?_, ?_, ?_⟩
  · intro h
    unfold embed_chunks
    split
    · next hempty =>
        rw [List.isEmpty_iff] at hempty
        subst hempty
        cases embeddings <;> rfl
    · rw [h]
  · induction chunks generalizing embeddings with
    | nil => cases embeddings <;> rfl
    | cons c cs ih =>
        cases embeddings with
        | nil => rfl
        | cons em ems => simp [attachEmbeddings, ih]
  · induction chunks generalizing embeddings with
    | nil => intro i c em h; simp at h
    | cons c cs ih =>
        intro i c0 em0 hc he
        cases embeddings with
        | nil => simp at he
        | cons em ems =>
            cases i with
            | zero =>
                simp at hc he
                subst hc; subst he
                simp [attachEmbeddings]
            | succ j =>
                simp only [attachEmbeddings]
                simp only [List.getElem?_cons_succ] at hc he ⊢
                exact ih ems j c0 em0 hc he
  · induction chunks generalizing embeddings with
    | nil => intro i c h; simp at h
    | cons c cs ih =>
        intro i c0 hc hlen
        cases embeddings with
        | nil => simpa [attachEmbeddings] using hc
        | cons em ems =>
            cases i with
            | zero => simp at hlen
            | succ j =>
                simp only [attachEmbeddings]
                simp only [List.getElem?_cons_succ] at hc ⊢
                exact ih ems j c0 hc (by simpa using hlen)
  · intro hne h
    unfold embed_chunks
    split
    · next hempty => exact absurd (List.isEmpty_iff.mp hempty) hne
    · rw [h]

/-- The similarity sort comparator (descending by score) yields a list
that is pairwise descending. -/
theorem pairwise_mergeSort_desc (l : List (ChunkId × ℝ)) :
    (l.mergeSort (fun a b => decide (b.2 ≤ a.2))).Pairwise (fun a b => b.2 ≤ a.2) := by
  have h := @List.sorted_mergeSort (ChunkId × ℝ) (fun a b => decide (b.2 ≤ a.2))
    (fun a b c hab hbc => by
      simp only [decide_eq_true_eq] at hab hbc ⊢
      exact le_trans hbc hab)
    (fun a b => by
      simp only [Bool.or_eq_true, decide_eq_true_eq]
      exact le_total b.2 a.2) l
  exact h.imp (fun hab => of_decide_eq_true hab)

/-- Everything returned by parallel_similarity_search is a scored entry
of the candidate set. -/
theorem mem_parallel_similarity_search (sim : Embedding → Embedding → ℝ)
    (q : Embedding) (embs : List (ChunkId × Embedding)) (k : Nat)
    (ms : Option ℝ) {p : ChunkId × ℝ}
    (hp : p ∈ parallel_similarity_search sim q embs k ms) :
    ∃ a ∈ embs, p = (a.1, sim q a.2) := by
  simp only [parallel_similarity_search] at hp
  have h1 := List.take_subset _ _ hp
  rw [List.mem_mergeSort] at h1
  have h2 := (List.mem_filter.mp h1).1
  rcases List.mem_map.mp h2 with ⟨a, ha, hfa⟩
  exact ⟨a, ha, hfa.symm⟩

/-- With a score floor, every returned entry clears the floor. -/
theorem parallel_similarity_search_min_score (sim : Embedding → Embedding → ℝ)
    (q : Embedding) (embs : List (ChunkId × Embedding)) (k : Nat) (m : ℝ) :
    ∀ p ∈ parallel_similarity_search sim q embs k (some m), m ≤ p.2 := by
  intro p hp
  simp only [parallel_similarity_search] at hp
  have h1 := List.take_subset _ _ hp
  rw [List.mem_mergeSort] at h1
  have h2 := (List.mem_filter.mp h1).2
  exact of_decide_eq_true h2

/-- C1: the similarity search scores the whole shadow, filters by the
score floor before truncation (the result size is the minimum of k and
the number of candidates clearing the floor), returns a descending list
of at most k entries, and k = 0 gives the empty list; search_similar is
exactly this search without a floor, and every result of
search_similar_advanced with a floor clears it. -/
theorem C1_similarity_search_spec :
    ∀ (sim : Embedding → Embedding → ℝ) (q : Embedding)
      (embeddings : List (ChunkId × Embedding)) (top_k : Nat)
      (min_score : Option ℝ) (s : SledVectorStore),
      (parallel_similarity_search sim q embeddings top_k min_score).Pairwise
          (fun a b => b.2 ≤ a.2)
      ∧ (parallel_similarity_search sim q embeddings top_k min_score).length =
          min top_k ((embeddings.map (fun p => (p.1, sim q p.2))).filter
            (fun p => match min_score with
              | some m => decide (m ≤ p.2)
              | none => true)).length
      ∧ (parallel_similarity_search sim q embeddings top_k min_score).length ≤ top_k
      ∧ (∀ m, min_score = some m →
          ∀ p ∈ parallel_similarity_search sim q embeddings top_k min_score, m ≤ p.2)
      ∧ (top_k = 0 → parallel_similarity_search sim q embeddings top_k min_score = [])
      ∧ SledVectorStore.search_similar sim s q top_k =
          parallel_similarity_search sim q s.index.embeddings top_k none
      ∧ (∀ m, ∀ r ∈ SledVectorStore.search_similar_advanced sim s q top_k (some m),
          m ≤ r.similarity_score) := by
  intro sim q embeddings top_k min_score s
  refine ⟨?_, ?_, ?_, ?_, ?_, ?_, ?_⟩
  · simp only [parallel_similarity_search]
    exact List.Pairwise.sublist (List.take_sublist _ _) (pairwise_mergeSort_desc _)
  · simp only [parallel_similarity_search]
    rw [List.length_take, List.length_mergeSort]
  · simp only [parallel_similarity_search]
    rw [List.length_take]
    exact min_le_left _ _
  · intro m hm
    subst hm
    exact parallel_similarity_search_min_score sim q embeddings top_k m
  · intro h
    subst h
    simp [parallel_similarity_search]
  · unfold SledVectorStore.search_similar
    split
    · next hemp =>
        rw [List.isEmpty_iff] at hemp
        rw [hemp]
        simp [parallel_similarity_search]
    · rfl
  · intro m r hr
    unfold SledVectorStore.search_similar_advanced at hr
    split at hr
    · simp at hr
    · simp only at hr
      rcases List.mem_filterMap.mp hr with ⟨p, hp, hf⟩
      rcases hg : s.get_chunk p.1 with _ | chunk
      · rw [hg] at hf
        simp at hf
      · rw [hg] at hf
        have hr2 : r = { RetrievalResult.new chunk p.2 with final_score := p.2 } := by
          exact (Option.some.injEq _ _ ▸ hf).symm
        have hmin := parallel_similarity_search_min_score sim q s.index.embeddings
          top_k m p hp
        rw [hr2]
        exact hmin

/-- C1 witness: the spec applied at k = 0 yields the empty result. -/
theorem C1_similarity_search_witness :
    parallel_similarity_search (fun _ _ => (0 : ℝ)) [] [] 0 none = [] :=
  (C1_similarity_search_spec (fun _ _ => (0 : ℝ)) [] [] 0 none
    ⟨[], ⟨[]⟩⟩).2.2.2.2.1 rfl

/-- C9: batch search returns exactly the per-query search_similar results,
one inner list per query, outer order preserved — for both backends. -/
theorem C9_batch_search_per_query :
    ∀ (sim : Embedding → Embedding → ℝ) (s : SledVectorStore)
      (t : FaissVectorStore) (qs : List Embedding) (k : Nat),
      SledVectorStore.batch_search_similar sim s qs k =
        qs.map (fun q => SledVectorStore.search_similar sim s q k)
      ∧ (SledVectorStore.batch_search_similar sim s qs k).length = qs.length
      ∧ FaissVectorStore.batch_search_similar sim t qs k =
          qs.map (fun q => FaissVectorStore.search_similar sim t q k) := by
  intro sim s t qs k
  refine ⟨?_, ?_, ?_⟩
  · unfold SledVectorStore.batch_search_similar SledVectorStore.search_similar
    by_cases h : s.index.embeddings.isEmpty
    · simp only [h, if_true]
      exact (List.map_const' qs []).symm
    · simp [h]
  · unfold SledVectorStore.batch_search_similar
    by_cases h : s.index.embeddings.isEmpty <;> simp [h]
  · unfold FaissVectorStore.batch_search_similar FaissVectorStore.search_similar
    by_cases h : t.index.embeddings.isEmpty
    · simp only [h, if_true]
      exact (List.map_const' qs []).symm
    · simp [h]

/-- find? for a key distinct from the erased one ignores the erasure. -/
theorem find?_filter_ne {α : Type} (l : List (ChunkId × α)) (k k' : ChunkId)
    (h : k' ≠ k) :
    (l.filter (fun p => !(p.1 == k))).find? (fun p => p.1 == k') =
      l.find? (fun p => p.1 == k') := by
  induction l with
  | nil => rfl
  | cons a t ih =>
      by_cases ha : a.1 = k
      · rw [List.filter_cons_of_neg (by simp [ha])]
        rw [List.find?_cons_of_neg _ (by simp [ha]; exact Ne.symm h)]
        exact ih
      · rw [List.filter_cons_of_pos (by simp [ha])]
        by_cases hk : a.1 = k'
        · rw [List.find?_cons_of_pos _ (by simp [hk]),
            List.find?_cons_of_pos _ (by simp [hk])]
        · rw [List.find?_cons_of_neg _ (by simp [hk]),
            List.find?_cons_of_neg _ (by simp [hk])]
          exact ih

/-- Lookup after insert at the inserted key. -/
theorem listLookup_listInsert_self {α : Type} (l : List (ChunkId × α))
    (k : ChunkId) (v : α) : listLookup (listInsert l k v) k = some v := by
  unfold listLookup listInsert
  rw [List.find?_cons_of_pos _ (by simp)]

/-- Lookup after insert at a different key. -/
theorem listLookup_listInsert_ne {α : Type} (l : List (ChunkId × α))
    {k k' : ChunkId} (v : α) (h : k' ≠ k) :
    listLookup (listInsert l k v) k' = listLookup l k' := by
  unfold listLookup listInsert
  rw [List.find?_cons_of_neg _ (by simp; exact Ne.symm h)]
  rw [find?_filter_ne l k k' h]

/-- Lookup after erase at a different key. -/
theorem listLookup_listErase_ne {α : Type} (l : List (ChunkId × α))
    {k k' : ChunkId} (h : k' ≠ k) :
    listLookup (listErase l k) k' = listLookup l k' := by
  unfold listLookup listErase
  rw [find?_filter_ne l k k' h]

/-- Insert preserves presence of any key. -/
theorem listLookup_isSome_listInsert {α : Type} (l : List (ChunkId × α))
    (k k' : ChunkId) (v : α) (h : (listLookup l k').isSome) :
    (listLookup (listInsert l k v) k').isSome := by
  by_cases hk : k' = k
  · subst hk
    rw [listLookup_listInsert_self]
    rfl
  · rw [listLookup_listInsert_ne l v hk]
    exact h

/-- Members of an insert are the new binding or old members. -/
theorem mem_listInsert {α : Type} {l : List (ChunkId × α)} {k : ChunkId}
    {v : α} {p : ChunkId × α} (hp : p ∈ listInsert l k v) :
    p = (k, v) ∨ p ∈ l := by
  rcases List.mem_cons.mp hp with h1 | h1
  · exact Or.inl h1
  · exact Or.inr (List.mem_of_mem_filter h1)

/-- store_chunk preserves shadow-index soundness (sled backend). -/
theorem sled_store_chunk_inv (s : SledVectorStore) (c : Chunk) (h : s.Inv) :
    (s.store_chunk c).Inv := by
  intro p hp
  unfold SledVectorStore.store_chunk at hp ⊢
  unfold SledVectorStore.get_chunk
  split at hp
  · next e heq =>
      dsimp only at hp ⊢
      rcases mem_listInsert hp with h1 | h1
      · rw [h1]
        dsimp only
        rw [listLookup_listInsert_self]
        rfl
      · by_cases hk : p.1 = c.id
        · rw [hk, listLookup_listInsert_self]
          rfl
        · rw [listLookup_listInsert_ne _ _ hk]
          exact h p h1
  · next heq =>
      dsimp only at hp ⊢
      by_cases hk : p.1 = c.id
      · rw [hk, listLookup_listInsert_self]
        rfl
      · rw [listLookup_listInsert_ne _ _ hk]
        exact h p hp

/-- store_chunks is the chunk-by-chunk fold of store_chunk (sled). -/
theorem sled_store_chunks_cons (s : SledVectorStore) (c : Chunk) (t : List Chunk) :
    s.store_chunks (c :: t) = (s.store_chunk c).store_chunks t := by
  unfold SledVectorStore.store_chunks SledVectorStore.store_chunk
  rcases hc : c.embedding with _ | e <;>
    simp [hc, List.filterMap_cons]

/-- store_chunks preserves shadow-index soundness (sled backend). -/
theorem sled_store_chunks_inv (cs : List Chunk) :
    ∀ (s : SledVectorStore), s.Inv → (s.store_chunks cs).Inv := by
  induction cs with
  | nil => intro s h; exact h
  | cons c t ih =>
      intro s h
      rw [sled_store_chunks_cons]
      exact ih _ (sled_store_chunk_inv s c h)

/-- delete_chunk preserves shadow-index soundness (sled backend). -/
theorem sled_delete_chunk_inv (s : SledVectorStore) (id : ChunkId) (h : s.Inv) :
    (s.delete_chunk id).Inv := by
  intro p hp
  unfold SledVectorStore.delete_chunk at hp ⊢
  unfold SledVectorStore.get_chunk
  simp only at hp ⊢
  unfold listErase at hp
  have h1 := List.mem_of_mem_filter hp
  have h2 : p.1 ≠ id := by
    have := List.of_mem_filter hp
    simpa using this
  rw [listLookup_listErase_ne _ h2]
  exact h p h1

/-- delete_chunks is the id-by-id fold of delete_chunk (sled). -/
theorem sled_delete_chunks_cons (s : SledVectorStore) (i : ChunkId)
    (t : List ChunkId) :
    s.delete_chunks (i :: t) = (s.delete_chunk i).delete_chunks t := by
  unfold SledVectorStore.delete_chunks SledVectorStore.delete_chunk
  simp [List.foldl_cons]

/-- delete_chunks preserves shadow-index soundness (sled backend). -/
theorem sled_delete_chunks_inv (ids : List ChunkId) :
    ∀ (s : SledVectorStore), s.Inv → (s.delete_chunks ids).Inv := by
  induction ids with
  | nil => intro s h; exact h
  | cons i t ih =>
      intro s h
      rw [sled_delete_chunks_cons]
      exact ih _ (sled_delete_chunk_inv s i h)

/-- Every id returned by search_similar is fetchable (sled backend). -/
theorem sled_search_fetchable (sim : Embedding → Embedding → ℝ)
    (s : SledVectorStore) (q : Embedding) (k : Nat) (h : s.Inv) :
    ∀ p ∈ s.search_similar sim q k, (s.get_chunk p.1).isSome := by
  intro p hp
  unfold SledVectorStore.search_similar at hp
  split at hp
  · simp at hp
  · rcases mem_parallel_similarity_search sim q _ k none hp with ⟨a, ha, hpa⟩
    rw [hpa]
    exact h a ha

/-- store_chunk preserves shadow-index soundness (in-memory backend). -/
theorem faiss_store_chunk_inv (s : FaissVectorStore) (c : Chunk) (h : s.Inv) :
    (s.store_chunk c).Inv := by
  intro p hp
  unfold FaissVectorStore.store_chunk at hp ⊢
  unfold FaissVectorStore.get_chunk
  split at hp
  · next e heq =>
      dsimp only at hp ⊢
      rcases mem_listInsert hp with h1 | h1
      · rw [h1]
        dsimp only
        rw [listLookup_listInsert_self]
        rfl
      · by_cases hk : p.1 = c.id
        · rw [hk, listLookup_listInsert_self]
          rfl
        · rw [listLookup_listInsert_ne _ _ hk]
          exact h p h1
  · next heq =>
      dsimp only at hp ⊢
      by_cases hk : p.1 = c.id
      · rw [hk, listLookup_listInsert_self]
        rfl
      · rw [listLookup_listInsert_ne _ _ hk]
        exact h p hp

/-- store_chunks preserves shadow-index soundness (in-memory backend). -/
theorem faiss_store_chunks_inv (cs : List Chunk) :
    ∀ (s : FaissVectorStore), s.Inv → (s.store_chunks cs).Inv := by
  induction cs with
  | nil => intro s h; exact h
  | cons c t ih =>
      intro s h
      unfold FaissVectorStore.store_chunks
      rw [List.foldl_cons]
      exact ih _ (faiss_store_chunk_inv s c h)

/-- delete_chunk preserves shadow-index soundness (in-memory backend). -/
theorem faiss_delete_chunk_inv (s : FaissVectorStore) (id : ChunkId) (h : s.Inv) :
    (s.delete_chunk id).Inv := by
  intro p hp
  unfold FaissVectorStore.delete_chunk at hp ⊢
  unfold FaissVectorStore.get_chunk
  simp only at hp ⊢
  unfold listErase at hp
  have h1 := List.mem_of_mem_filter hp
  have h2 : p.1 ≠ id := by
    have := List.of_mem_filter hp
    simpa using this
  rw [listLookup_listErase_ne _ h2]
  exact h p h1

/-- delete_chunks is the id-by-id fold of delete_chunk (in-memory). -/
theorem faiss_delete_chunks_cons (s : FaissVectorStore) (i : ChunkId)
    (t : List ChunkId) :
    s.delete_chunks (i :: t) = (s.delete_chunk i).delete_chunks t := by
  unfold FaissVectorStore.delete_chunks FaissVectorStore.delete_chunk
  simp [List.foldl_cons]

/-- delete_chunks preserves shadow-index soundness (in-memory backend). -/
theorem faiss_delete_chunks_inv (ids : List ChunkId) :
    ∀ (s : FaissVectorStore), s.Inv → (s.delete_chunks ids).Inv := by
  induction ids with
  | nil => intro s h; exact h
  | cons i t ih =>
      intro s h
      rw [faiss_delete_chunks_cons]
      exact ih _ (faiss_delete_chunk_inv s i h)

/-- Every id returned by search_similar is fetchable (in-memory backend). -/
theorem faiss_search_fetchable (sim : Embedding → Embedding → ℝ)
    (s : FaissVectorStore) (q : Embedding) (k : Nat) (h : s.Inv) :
    ∀ p ∈ s.search_similar sim q k, (s.get_chunk p.1).isSome := by
  intro p hp
  unfold FaissVectorStore.search_similar at hp
  split at hp
  · simp at hp
  · rcases mem_parallel_similarity_search sim q _ k none hp with ⟨a, ha, hpa⟩
    rw [hpa]
    exact h a ha

/-- C10: in both backends, store_chunk, store_chunks, delete_chunk,
delete_chunks and clear all preserve the invariant that every id in the
in-memory shadow has a chunk record in the backing store; consequently
every id returned by search_similar can be fetched by get_chunk. -/
theorem C10_shadow_index_soundness :
    ∀ (sim : Embedding → Embedding → ℝ) (c : Chunk) (cs : List Chunk)
      (id : ChunkId) (ids : List ChunkId) (q : Embedding) (k : Nat)
      (s : SledVectorStore) (t : FaissVectorStore),
      (s.Inv →
        (s.store_chunk c).Inv ∧ (s.store_chunks cs).Inv ∧
        (s.delete_chunk id).Inv ∧ (s.delete_chunks ids).Inv ∧
        (s.clear).Inv ∧
        ∀ p ∈ s.search_similar sim q k, (s.get_chunk p.1).isSome)
      ∧ (t.Inv →
          (t.store_chunk c).Inv ∧ (t.store_chunks cs).Inv ∧
          (t.delete_chunk id).Inv ∧ (t.delete_chunks ids).Inv ∧
          (t.clear).Inv ∧
          ∀ p ∈ t.search_similar sim q k, (t.get_chunk p.1).isSome) := by
  intro sim c cs id ids q k s t
  constructor
  · intro h
    refine ⟨sled_store_chunk_inv s c h, sled_store_chunks_inv cs s h,
      sled_delete_chunk_inv s id h, sled_delete_chunks_inv ids s h, ?_,
      sled_search_fetchable sim s q k h⟩
    intro p hp
    exact absurd hp (List.not_mem_nil p)
  · intro h
    refine ⟨faiss_store_chunk_inv t c h, faiss_store_chunks_inv cs t h,
      faiss_delete_chunk_inv t id h, faiss_delete_chunks_inv ids t h, ?_,
      faiss_search_fetchable sim t q k h⟩
    intro p hp
    exact absurd hp (List.not_mem_nil p)

/-- C10 witness: the preservation theorem applied to the empty sled store. -/
theorem C10_shadow_index_soundness_witness :
    ((⟨[], ⟨[]⟩⟩ : SledVectorStore).store_chunk ⟨0, 0, "x", none, 0, 1, 1⟩).Inv :=
  ((C10_shadow_index_soundness (fun _ _ => (0 : ℝ)) ⟨0, 0, "x", none, 0, 1, 1⟩
      [] 0 [] [] 0 ⟨[], ⟨[]⟩⟩ ⟨[], ⟨[]⟩⟩).1
    (fun p hp => absurd hp (List.not_mem_nil p))).1

/-- Every sub-chunk emitted by the sentence loop before its last one was
sealed by the mid-loop guard and hence carries at least 150 tokens. -/
theorem subChunksLoop_dropLast_min :
    ∀ (cid : ChunkId) (count_tokens : String → Nat) (sentences : List String)
      (current_content : String) (current_tokens start_offset : Nat),
      ∀ sc ∈ (subChunksLoop cid count_tokens sentences current_content
          current_tokens start_offset).dropLast,
        150 ≤ sc.token_count := by
  intro cid ct sentences
  induction sentences with
  | nil =>
      intro cur tok off sc hsc
      unfold subChunksLoop at hsc
      split at hsc <;> simp at hsc
  | cons s rest ih =>
      intro cur tok off sc hsc
      unfold subChunksLoop at hsc
      split at hsc
      · next hguard =>
          rcases hL : subChunksLoop cid ct rest s (ct s) (off + s.length) with _ | ⟨y, t⟩
          · rw [hL] at hsc
            simp at hsc
          · rw [hL] at hsc
            rw [List.dropLast_cons₂] at hsc
            rcases List.mem_cons.mp hsc with h | h
            · subst h
              exact hguard.2
            · exact ih s (ct s) (off + s.length) sc (by rw [hL]; exact h)
      · exact ih _ _ _ sc hsc

/-- C3 counterexample: a parent of 360 tokens splitting into sentences of
260 and 100 tokens yields sub-chunks of 260 tokens (above 250: the loop
must keep absorbing while under 150) and 100 tokens (below 150: the
trailing remainder is emitted as-is), violating both claimed bounds. -/
theorem C3_sub_chunk_range_counterexample :
    ¬ (∀ sc ∈ create_sub_chunks
          (fun s => if s = "A" then 260 else 100)
          (fun _ => ["A", "B"])
          [⟨0, 0, "AB", none, 0, 2, 360⟩],
        150 ≤ sc.token_count ∧ sc.token_count ≤ 250) := by
  decide

/-- C3 amended: a parent of at most 250 tokens passes through as exactly
one sub-chunk equal to the parent; for a split parent every sub-chunk
except possibly the last carries at least 150 tokens — but sub-chunks may
exceed 250 tokens (a long sentence absorbed while the pending count was
still under 150 overshoots) and the final sub-chunk may fall below 150. -/
theorem C3_sub_chunk_range_amended :
    ∀ (count_tokens : String → Nat) (unicode_sentences : String → List String)
      (chunk : Chunk),
      (chunk.token_count ≤ 250 →
        create_sub_chunks count_tokens unicode_sentences [chunk] =
          [⟨chunk.id, chunk.content, 0, chunk.content.length, chunk.token_count⟩])
      ∧ ∀ sc ∈ (create_sub_chunks count_tokens unicode_sentences [chunk]).dropLast,
          150 ≤ sc.token_count := by
  intro ct us chunk
  constructor
  · intro h
    simp [create_sub_chunks, h]
  · intro sc hsc
    by_cases h : chunk.token_count ≤ 250
    · simp [create_sub_chunks, h] at hsc
    · simp only [create_sub_chunks, List.flatMap_cons, List.flatMap_nil,
        List.append_nil, if_neg h] at hsc
      exact subChunksLoop_dropLast_min chunk.id ct (us chunk.content) "" 0 0 sc hsc

/-- C3 witness: the amended theorem applied to a small parent chunk. -/
theorem C3_sub_chunk_range_witness :
    create_sub_chunks (fun _ => 0) (fun _ => []) [⟨1, 2, "hi", none, 0, 2, 10⟩] =
      [⟨1, "hi", 0, 2, 10⟩] :=
  (C3_sub_chunk_range_amended (fun _ => 0) (fun _ => [])
    ⟨1, 2, "hi", none, 0, 2, 10⟩).1 (by decide)

/-- C7 witness: the amended theorem applied at a matching one-chunk,
one-vector call. -/
theorem C7_embed_chunks_witness :
    embed_chunks (fun _ => Except.ok [[(1 : ℝ)]]) [⟨0, 0, "x", none, 0, 1, 1⟩] =
      Except.ok (attachEmbeddings [⟨0, 0, "x", none, 0, 1, 1⟩] [[(1 : ℝ)]]) :=
  (C7_embed_chunks_amended (fun _ => Except.ok [[(1 : ℝ)]])
    [⟨0, 0, "x", none, 0, 1, 1⟩] [[(1 : ℝ)]] (RagError.other "")).1 rfl

/-- Squared-norm decomposition at a cons cell. -/
theorem norm_sq_cons (x : ℝ) (l : List ℝ) :
    norm_sq (x :: l) = x * x + norm_sq l := by
  simp [norm_sq]

/-- Dot-product decomposition at a cons cell. -/
theorem dot_product_cons (x y : ℝ) (a b : List ℝ) :
    dot_product (x :: a) (y :: b) = x * y + dot_product a b := by
  simp [dot_product]

/-- The squared norm is non-negative. -/
theorem norm_sq_nonneg (a : Embedding) : 0 ≤ norm_sq a := by
  induction a with
  | nil => simp [norm_sq]
  | cons x l ih =>
      rw [norm_sq_cons]
      have := mul_self_nonneg x
      linarith

/-- The quadratic form ‖a + t·b‖² expanded is non-negative for every t. -/
theorem quad_nonneg (t : ℝ) :
    ∀ (a b : List ℝ), a.length = b.length →
      0 ≤ norm_sq a + 2 * t * dot_product a b + t ^ 2 * norm_sq b := by
  intro a
  induction a with
  | nil =>
      intro b hb
      cases b with
      | nil => simp [norm_sq, dot_product]
      | cons y ys => simp at hb
  | cons x xs ih =>
      intro b hb
      cases b with
      | nil => simp at hb
      | cons y ys =>
          have hlen : xs.length = ys.length := by simpa using hb
          have h1 := ih ys hlen
          rw [norm_sq_cons, norm_sq_cons, dot_product_cons]
          nlinarith [sq_nonneg (x + t * y), h1]

/-- Cauchy–Schwarz for the list dot product. -/
theorem dot_product_sq_le (a b : List ℝ) (h : a.length = b.length) :
    dot_product a b ^ 2 ≤ norm_sq a * norm_sq b := by
  rcases eq_or_lt_of_le (norm_sq_nonneg b) with hT | hT
  · have hd : dot_product a b = 0 := by
      by_contra hd
      have hq := quad_nonneg (-(norm_sq a + 1) / (2 * dot_product a b)) a b h
      rw [← hT, mul_zero, add_zero] at hq
      have key : 2 * (-(norm_sq a + 1) / (2 * dot_product a b)) * dot_product a b
          = -(norm_sq a + 1) := by
        field_simp
        ring
      rw [key] at hq
      linarith
    rw [hd, ← hT]
    simp
  · have hq := quad_nonneg (-(dot_product a b / norm_sq b)) a b h
    have hT0 : norm_sq b ≠ 0 := ne_of_gt hT
    have key : norm_sq a + 2 * (-(dot_product a b / norm_sq b)) * dot_product a b +
        (-(dot_product a b / norm_sq b)) ^ 2 * norm_sq b =
        norm_sq a - dot_product a b ^ 2 / norm_sq b := by
      field_simp
      ring
    rw [key] at hq
    have h3 : dot_product a b ^ 2 / norm_sq b ≤ norm_sq a := by linarith
    calc dot_product a b ^ 2
        = dot_product a b ^ 2 / norm_sq b * norm_sq b := by field_simp
      _ ≤ norm_sq a * norm_sq b := mul_le_mul_of_nonneg_right h3 (le_of_lt hT)

/-- The dot product is bounded by the product of the norms. -/
theorem abs_dot_product_le (a b : List ℝ) (h : a.length = b.length) :
    |dot_product a b| ≤ Real.sqrt (norm_sq a) * Real.sqrt (norm_sq b) := by
  rw [← Real.sqrt_mul (norm_sq_nonneg a), ← Real.sqrt_sq_eq_abs]
  exact Real.sqrt_le_sqrt (dot_product_sq_le a b h)

/-- C5 counterexample: the cosine similarity of the one-dimensional
vectors [1] and [-1] is exactly -1, a negative similarity score — so a
RetrievalResult built from it carries a similarity_score outside [0,1]. -/
theorem C5_negative_similarity_counterexample :
    cosine_similarity [1] [-1] = -1 ∧ cosine_similarity [1] [-1] < 0 := by
  have hd : dot_product [1] [-1] = -1 := by
    simp [dot_product]
  have hn1 : norm_sq [1] = 1 := by
    norm_num [norm_sq]
  have hn2 : norm_sq [-1] = 1 := by
    norm_num [norm_sq]
  have h : cosine_similarity [1] [-1] = -1 := by
    simp only [cosine_similarity]
    rw [if_neg (by simp)]
    rw [hd, hn1, hn2, Real.sqrt_one]
    rw [if_neg (by norm_num)]
    norm_num
  exact ⟨h, by rw [h]; norm_num⟩

/-- C5 amended: cosine_similarity always lies in [-1, 1] (it is 0 on a
length mismatch or a zero norm, and otherwise bounded by Cauchy–Schwarz),
but it is not confined to [0, 1]: it is negative on vectors with negative
dot product; RetrievalResult::new stores the given score unchanged. -/
theorem C5_similarity_range_amended :
    ∀ (a b : Embedding) (c : Chunk) (s : ℝ),
      -1 ≤ cosine_similarity a b ∧ cosine_similarity a b ≤ 1
      ∧ (RetrievalResult.new c s).similarity_score = s := by
  intro a b c s
  have habs : |cosine_similarity a b| ≤ 1 := by
    simp only [cosine_similarity]
    split
    · simp
    · next hlen =>
        split
        · simp
        · next hnz =>
            push_neg at hnz
            rcases hnz with ⟨hA, hB⟩
            have hA' : 0 < Real.sqrt (norm_sq a) :=
              lt_of_le_of_ne (Real.sqrt_nonneg _) (Ne.symm hA)
            have hB' : 0 < Real.sqrt (norm_sq b) :=
              lt_of_le_of_ne (Real.sqrt_nonneg _) (Ne.symm hB)
            have hprod : 0 < Real.sqrt (norm_sq a) * Real.sqrt (norm_sq b) :=
              mul_pos hA' hB'
            rw [abs_div, abs_of_pos hprod, div_le_one hprod]
            exact abs_dot_product_le a b (not_not.mp hlen)
  have h2 := abs_le.mp habs
  exact ⟨h2.1, h2.2, rfl⟩

end Melanie
